import Mathlib

/-!
Verification of the filedrop signaling relay.

The repository ships the same relay three times: `src/deno.ts` contains a
class based implementation (Peer / Room / RoomManager / handleMessage,
called `DenoA` below) followed by an older functional implementation
(joinRoom / leaveRoom / onMessage / Peer.keepAlive, called `DenoB` below),
and `src/worker.js` contains a Cloudflare worker implementation (class Room
with a sessions array, called `Worker` below).

The embedding models JS objects as Lean structures, the JS `Map` and plain
object dictionaries as association lists in insertion order, and the effect
of calling `send` on a socket as an emitted event `(targetPeerId, payload)`.
`JSON.parse` of an inbound frame is modelled as an `Option Msg` (with `none`
for a throwing parse), and environment randomness (crypto.randomUUID,
Peer.uuid) as an externally supplied fresh string.
-/

namespace FileDrop

/-- Public peer description: the shape returned by `getInfo` in all three
implementations, `{id, name: {deviceName, displayName}, rtcSupported}`. -/
structure PeerInfo where
  id : String
  deviceName : String
  displayName : String
  rtcSupported : Bool
deriving DecidableEq, Repr

/-- A decoded JSON message object. The relay only ever reads or writes the
`type`, `to` and `sender` fields; every other field of the object is carried
opaquely in `rest` and never inspected. A field holding `none` is absent
from the object. -/
structure Msg where
  type? : Option String
  to? : Option String
  sender? : Option String
  rest : List (String × String)
deriving DecidableEq, Repr

/-- A server-to-client frame, as serialized by the senders in the source. -/
inductive Payload where
  | ping
  | displayName (deviceName displayName : String)
  | peeridMsg (id : String)
  | peersList (peers : List PeerInfo)
  | peerJoined (peer : PeerInfo)
  | peerLeft (peerId : String)
  | relayed (m : Msg)
deriving DecidableEq, Repr

/-- An emitted send call: target peer id paired with the payload. -/
abbrev Event := String × Payload

/-- Effects of one call to a low level send function: either bytes written
on the socket, or the owning Room removal path triggered for the target. -/
inductive SendEffect where
  | wrote (p : Payload)
  | removalTriggered
deriving DecidableEq, Repr

/-- Count occurrences of an event in an emitted event list. -/
def countEvents : List Event → Event → Nat
  | [], _ => 0
  | x :: r, e => (if x = e then 1 else 0) + countEvents r e

namespace DenoA

/-! The class based implementation: first document of `src/deno.ts`. -/

/-- Peer (class Peer in deno.ts): the id and the immutable presentation
record. Socket state and heartbeat state are passed separately where the
modelled operation reads them. -/
structure Peer where
  id : String
  deviceName : String
  displayName : String
  rtcSupported : Bool
deriving DecidableEq, Repr

/-- Peer.getInfo. -/
def Peer.getInfo (p : Peer) : PeerInfo :=
  { id := p.id, deviceName := p.deviceName, displayName := p.displayName,
    rtcSupported := p.rtcSupported }

/-- Peer.send (deno.ts): `if (socket.readyState === OPEN) socket.send(...)`.
There is no other statement in the body, so a not open socket produces no
effect at all, and no branch triggers a removal. -/
def Peer.send (socketOpen : Bool) (m : Payload) : List SendEffect :=
  if socketOpen then [SendEffect.wrote m] else []

/-- Room membership: the JS `Map<string, Peer>` as an association list in
insertion order. -/
abbrev RoomState := List Peer

/-- Map.get by peer id. -/
def getPeer : RoomState → String → Option Peer
  | [], _ => none
  | p :: rest, pid => if p.id = pid then some p else getPeer rest pid

/-- Map.has by peer id. -/
def hasPeer (room : RoomState) (pid : String) : Bool :=
  (getPeer room pid).isSome

/-- Map.set: replaces in place when the key exists, else appends. -/
def mapSet : RoomState → Peer → RoomState
  | [], q => [q]
  | p :: rest, q => if p.id = q.id then q :: rest else p :: mapSet rest q

/-- Map.delete by peer id. -/
def mapDelete : RoomState → String → RoomState
  | [], _ => []
  | p :: rest, pid => if p.id = pid then rest else p :: mapDelete rest pid

/-- Room.broadcast: `for (peer of peers.values()) if (peer.id !== excludeId)
peer.send(message)`. -/
def broadcast : RoomState → Payload → Option String → List Event
  | [], _, _ => []
  | p :: rest, pay, ex =>
    if some p.id = ex then broadcast rest pay ex
    else (p.id, pay) :: broadcast rest pay ex

/-- Room.addPeer: (1) broadcast peer-joined excluding the joiner, (2) send
the joiner the `peers` snapshot of the membership before insertion,
(3) insert the joiner with Map.set. -/
def Room.addPeer (room : RoomState) (peer : Peer) : RoomState × List Event :=
  let out1 := broadcast room (Payload.peerJoined peer.getInfo) (some peer.id)
  let out2 : List Event := [(peer.id, Payload.peersList (room.map Peer.getInfo))]
  (mapSet room peer, out1 ++ out2)

/-- Room.removePeer: guarded by Map.has; deletes the entry, then broadcasts
peer-left (with no exclusion) over the remaining membership. -/
def Room.removePeer (room : RoomState) (pid : String) : RoomState × List Event :=
  if hasPeer room pid then
    let room1 := mapDelete room pid
    (room1, broadcast room1 (Payload.peerLeft pid) none)
  else (room, [])

/-- Action taken by handleMessage. `forward t m` records the call
`recipient.send(m)` on the member whose id is `t`; the socket gate of that
call is `Peer.send`. -/
inductive AAction where
  | recordPong
  | closeSender
  | forward (target : String) (m : Msg)
deriving DecidableEq, Repr

/-- handleMessage (deno.ts): a switch on `message.type` in which the pong
and disconnect cases break out, and the default case relays when `to` is
present, truthy, and names a member of the room. The code assigns
`message.sender = sender.id` and forwards; it does not delete `message.to`. -/
def handleMessage (senderId : String) (m : Msg) (room : RoomState) : List AAction :=
  if m.type? = some "pong" then [AAction.recordPong]
  else if m.type? = some "disconnect" then [AAction.closeSender]
  else
    match m.to? with
    | some t =>
      if t = "" then []
      else if hasPeer room t then
        [AAction.forward t { m with sender? := some senderId }]
      else []
    | none => []

/-- Message event listener in handleWebSocket: `try { JSON.parse; handle }
catch { log }`. The parse is modelled as an already decoded `Option Msg`;
`none` stands for a throwing parse and is dropped. -/
def onRawMessage (decoded : Option Msg) (senderId : String) (room : RoomState) :
    List AAction :=
  match decoded with
  | none => []
  | some m => handleMessage senderId m room

/-- Peer id assignment (deno.ts constructor):
`this.id = getCookies(req.headers).peerid || crypto.randomUUID()`. The
cookie value is `none` when absent; the JS truthiness test makes the empty
string fall back to the fresh uuid as well. -/
def assignId (cookiePeerid : Option String) (freshUuid : String) : String :=
  match cookiePeerid with
  | some c => if c = "" then freshUuid else c
  | none => freshUuid

/-- Whether handleWebSocket sends the `{type:"peerid"}` frame:
`if (!getCookies(req.headers).peerid) peer.send({type:"peerid", ...})`. -/
def sendsPeeridMessage (cookiePeerid : Option String) : Bool :=
  match cookiePeerid with
  | some c => c == ""
  | none => true

/-- KEEPALIVE_INTERVAL (deno.ts). -/
def KEEPALIVE_INTERVAL : Nat := 30000

/-- Outcome of one keepalive tick. -/
inductive TickOutcome where
  | closedPeer
  | pinged
deriving DecidableEq, Repr

/-- One tick of the setInterval callback in Peer.startKeepAlive:
`if (Date.now() - lastBeat > KEEPALIVE_INTERVAL * 2) { close(); return; }
send({type:"ping"})`. -/
def keepAliveTick (now lastBeat : Nat) : TickOutcome :=
  if now - lastBeat > KEEPALIVE_INTERVAL * 2 then TickOutcome.closedPeer
  else TickOutcome.pinged

/-- Whether the interval has closed the peer by tick `n`. The interval
fires at times `t0 + (i+1) * KEEPALIVE_INTERVAL` for `i = 0, 1, ...`, where
`t0` is the session creation time; `beat i` is the lastBeat value (set only
by pong receipt) observed at tick `i`. Once a tick closes, `close()` clears
the interval, so being closed is absorbing. -/
def closedByTick (t0 : Nat) (beat : Nat → Nat) : Nat → Bool
  | 0 => false
  | n + 1 =>
    closedByTick t0 beat n ||
      decide (keepAliveTick (t0 + (n + 1) * KEEPALIVE_INTERVAL) (beat n) =
        TickOutcome.closedPeer)

/-- RoomRegistry state (RoomManager in deno.ts): the JS
`Map<string, Room>` keyed by grouping key, as an association list. -/
abbrev Registry := List (String × RoomState)

/-- Map.get on the registry. -/
def regLookup : Registry → String → Option RoomState
  | [], _ => none
  | e :: rest, ip => if e.1 = ip then some e.2 else regLookup rest ip

/-- Map.set on the registry. -/
def regSet : Registry → String → RoomState → Registry
  | [], ip, room => [(ip, room)]
  | e :: rest, ip, room =>
    if e.1 = ip then (ip, room) :: rest else e :: regSet rest ip room

/-- Map.delete on the registry. -/
def regErase : Registry → String → Registry
  | [], _ => []
  | e :: rest, ip => if e.1 = ip then rest else e :: regErase rest ip

/-- RoomManager.getOrCreateRoom: store an empty Room on a miss, return the
stored Room. -/
def RoomManager.getOrCreateRoom (reg : Registry) (ip : String) :
    Registry × RoomState :=
  match regLookup reg ip with
  | some room => (reg, room)
  | none => (regSet reg ip [], [])

/-- RoomManager.removeRoomIfEmpty: delete the entry iff its Room is empty. -/
def RoomManager.removeRoomIfEmpty (reg : Registry) (ip : String) : Registry :=
  match regLookup reg ip with
  | some room => if room.isEmpty then regErase reg ip else reg
  | none => reg

/-- The open-event handler block of handleWebSocket, which runs in a single
event loop turn: getOrCreateRoom, then Room.addPeer on that room. The
mutated room is what the registry entry holds afterwards. -/
def openConn (reg : Registry) (ip : String) (peer : Peer) :
    Registry × List Event :=
  let s := RoomManager.getOrCreateRoom reg ip
  let a := Room.addPeer s.2 peer
  (regSet s.1 ip a.1, a.2)

/-- The onDisconnect callback registered in handleWebSocket, which runs in
a single event loop turn: `room.removePeer(peer.id);
roomManager.removeRoomIfEmpty(ip)`. -/
def teardownConn (reg : Registry) (ip : String) (pid : String) :
    Registry × List Event :=
  match regLookup reg ip with
  | some room =>
    let r := Room.removePeer room pid
    (RoomManager.removeRoomIfEmpty (regSet reg ip r.1) ip, r.2)
  | none => (reg, [])

/-- Registry well-formedness: Map keys are unique (inherent to a JS Map),
and every stored Room holds at least one peer (the invariant of claim C9). -/
def regWF (reg : Registry) : Prop :=
  (reg.map Prod.fst).Nodup ∧ ∀ e ∈ reg, e.2 ≠ ([] : RoomState)

instance regWFDecidable (reg : Registry) : Decidable (regWF reg) := by
  unfold regWF
  infer_instance

end DenoA

namespace DenoB

/-! The legacy functional implementation: second document of `src/deno.ts`. -/

/-- send (legacy deno.ts): `if (!peer) return; if (readyState != OPEN)
return; socket.send(...)`. No branch triggers a removal. -/
def send (peerPresent : Bool) (socketOpen : Bool) (m : Payload) : List SendEffect :=
  if peerPresent then (if socketOpen then [SendEffect.wrote m] else []) else []

/-- Keepalive state of one legacy session: the lastBeat timestamp, whether
a setTimeout callback is pending, and whether leaveRoom has run. -/
structure KAState where
  lastBeat : Nat
  timerPending : Bool
  leftRoom : Bool
deriving DecidableEq, Repr

/-- keepAlive body (legacy deno.ts): cancel any pending timer, default a
falsy lastBeat to now, leave the room when stale, otherwise ping and
schedule `setTimeout(() => this.keepAlive, timeout)` — the callback
evaluates the method reference without invoking it. -/
def keepAlive (now : Nat) (st : KAState) : KAState :=
  let lb := if st.lastBeat = 0 then now else st.lastBeat
  if now - lb > 2 * 30000 then
    { lastBeat := lb, timerPending := false, leftRoom := true }
  else
    { lastBeat := lb, timerPending := true, leftRoom := st.leftRoom }

/-- The scheduled callback `() => this.keepAlive` fires: it evaluates
`this.keepAlive` and discards the value, so the only effect is that the
timer is no longer pending. -/
def fireTimer (st : KAState) : KAState :=
  { st with timerPending := false }

/-- State after `n` timer firings with no pong received in between. -/
def runTimers (st : KAState) : Nat → KAState
  | 0 => st
  | n + 1 => fireTimer (runTimers st n)

/-- A legacy session as the relay sees it: its id and whether its socket is
currently open (the readyState gate of the legacy send). -/
structure BPeer where
  id : String
  socketOpen : Bool
deriving DecidableEq, Repr

/-- One legacy room: the plain object `rooms[ip]` mapping peer id to Peer,
as an association list in insertion order. -/
abbrev BRoom := List (String × BPeer)

/-- `rooms[ip][id]` lookup (undefined becomes none). -/
def roomGet : BRoom → String → Option BPeer
  | [], _ => none
  | kv :: rest, pid => if kv.1 = pid then some kv.2 else roomGet rest pid

/-- `delete rooms[ip][id]`. -/
def roomDelete : BRoom → String → BRoom
  | [], _ => []
  | kv :: rest, pid => if kv.1 = pid then rest else kv :: roomDelete rest pid

/-- The legacy send at an addressed call site, as emitted events: the same
function as `send` above (`if (!peer) return; if (readyState != OPEN)
return; socket.send(...)`), with the written frame recorded against the
recipient id. An absent recipient or a not open socket emits nothing. -/
def sendTo : Option BPeer → Payload → List Event
  | none, _ => []
  | some p, pay => if p.socketOpen then [(p.id, pay)] else []

/-- leaveRoom (legacy deno.ts), restricted to the entry of the global rooms
object for the leaving peer: no-op unless the room exists and holds the
peer id; otherwise cancel keepalive, delete the entry, close the socket,
then delete the room if it became empty (none) and otherwise send peer-left
to every remaining member through the legacy send. -/
def leaveRoom (room? : Option BRoom) (pid : String) : Option BRoom × List Event :=
  match room? with
  | none => (none, [])
  | some room =>
    match roomGet room pid with
    | none => (some room, [])
    | some _ =>
      let room1 := roomDelete room pid
      if room1.isEmpty then (none, [])
      else
        (some room1,
          room1.foldr (fun kv acc => sendTo (some kv.2) (Payload.peerLeft pid) ++ acc) [])

/-- onMessage (legacy deno.ts): a switch on `message.type` (disconnect runs
leaveRoom for the sender, pong sets `sender.lastBeat = Date.now()`)
followed — for every message, whatever its type — by the relay clause: when
`message.to` is truthy and `rooms[sender.ip]` exists, look up the recipient
(possibly undefined), delete `to`, stamp `sender`, and call send, which
silently drops the frame when the recipient is absent or its socket is not
open. The sender lastBeat bookkeeping is carried in the returned Nat. -/
def onMessage (room? : Option BRoom) (senderId : String) (senderBeat : Nat)
    (m : Msg) (now : Nat) : Option BRoom × Nat × List Event :=
  let s1 : Option BRoom × Nat × List Event :=
    if m.type? = some "disconnect" then
      let r := leaveRoom room? senderId
      (r.1, senderBeat, r.2)
    else if m.type? = some "pong" then (room?, now, ([] : List Event))
    else (room?, senderBeat, [])
  match m.to? with
  | some t =>
    if t = "" then s1
    else
      match s1.1 with
      | none => s1
      | some room =>
        (s1.1, s1.2.1,
          s1.2.2 ++ sendTo (roomGet room t)
            (Payload.relayed { m with to? := none, sender? := some senderId }))
  | none => s1

end DenoB

namespace Worker

/-! The Cloudflare implementation: `src/worker.js`. -/

/-- A session (class Peer in worker.js) plus its socket environment:
`sendFails` tells whether `socket.send` throws for this session. -/
structure WPeer where
  id : String
  deviceName : String
  displayName : String
  rtcSupported : Bool
  sendFails : Bool
deriving DecidableEq, Repr

/-- Peer.getInfo (worker.js). -/
def WPeer.getInfo (p : WPeer) : PeerInfo :=
  { id := p.id, deviceName := p.deviceName, displayName := p.displayName,
    rtcSupported := p.rtcSupported }

/-- Room state (worker.js): the sessions array and the lastBeat dictionary. -/
structure WRoom where
  sessions : List WPeer
  lastBeat : List (String × Nat)
deriving DecidableEq, Repr

/-- `sessions.filter((s) => s.id !== peer.id)`. -/
def removeSession : List WPeer → String → List WPeer
  | [], _ => []
  | s :: rest, pid =>
    if s.id = pid then removeSession rest pid else s :: removeSession rest pid

/-- `sessions.find((s) => s.id === to)`. -/
def findSession : List WPeer → String → Option WPeer
  | [], _ => none
  | s :: rest, pid => if s.id = pid then some s else findSession rest pid

/-- `lastBeat[id] = t`. -/
def setBeat : List (String × Nat) → String → Nat → List (String × Nat)
  | [], pid, t => [(pid, t)]
  | kv :: rest, pid, t =>
    if kv.1 = pid then (pid, t) :: rest else kv :: setBeat rest pid t

/-- `delete lastBeat[id]`. -/
def eraseBeat : List (String × Nat) → String → List (String × Nat)
  | [], _ => []
  | kv :: rest, pid => if kv.1 = pid then rest else kv :: eraseBeat rest pid

/-- Room.leaveRoom (worker.js): unconditionally filter the sessions, delete
the heartbeat entry, cancel the keepalive timer, then broadcast peer-left
over whatever sessions remain — there is no presence guard. Broadcast
writes are modelled as succeeding. -/
def Room.leaveRoom (room : WRoom) (pid : String) : WRoom × List Event :=
  let sessions1 := removeSession room.sessions pid
  ({ sessions := sessions1, lastBeat := eraseBeat room.lastBeat pid },
   sessions1.map (fun q => (q.id, Payload.peerLeft pid)))

/-- Room.send (worker.js): `if (!peer) return; try { socket.send(...) }
catch { this.leaveRoom(peer) }`. The peer argument is never null at the
modelled call sites; a throwing write runs the full removal path. -/
def Room.send (room : WRoom) (p : WPeer) (pay : Payload) : WRoom × List Event :=
  if p.sendFails then Room.leaveRoom room p.id else (room, [(p.id, pay)])

/-- Room.joinRoom (worker.js): called after the joiner was pushed into
sessions; notifies every other session, then sends the joiner the list of
the other sessions. Broadcast writes are modelled as succeeding. -/
def Room.joinRoom (sessions : List WPeer) (peer : WPeer) : List Event :=
  let others := removeSession sessions peer.id
  others.map (fun q => (q.id, Payload.peerJoined peer.getInfo)) ++
    [(peer.id, Payload.peersList (others.map WPeer.getInfo))]

/-- The join portion of Room.fetch (worker.js): `sessions.push(peer);
lastBeat[peer.id] = Date.now(); ...; this.joinRoom(peer)`. -/
def Room.fetchJoin (room : WRoom) (peer : WPeer) (now : Nat) :
    WRoom × List Event :=
  let room1 : WRoom :=
    { sessions := room.sessions ++ [peer],
      lastBeat := setBeat room.lastBeat peer.id now }
  (room1, Room.joinRoom room1.sessions peer)

/-- Room.onMessage (worker.js): a switch on `message.type` (disconnect
leaves the room, pong refreshes lastBeat) followed — for every message,
whatever its type — by the relay clause: when `to` is truthy and a session
with that id is found, delete `to`, stamp `sender`, and this.send it. -/
def Room.onMessage (room : WRoom) (senderId : String) (m : Msg) (now : Nat) :
    WRoom × List Event :=
  let s1 :=
    if m.type? = some "disconnect" then Room.leaveRoom room senderId
    else if m.type? = some "pong" then
      ({ room with lastBeat := setBeat room.lastBeat senderId now },
        ([] : List Event))
    else (room, [])
  match m.to? with
  | some t =>
    if t = "" then (s1.1, s1.2)
    else
      match findSession s1.1.sessions t with
      | some recipient =>
        let s2 := Room.send s1.1 recipient
          (Payload.relayed { m with to? := none, sender? := some senderId })
        (s2.1, s1.2 ++ s2.2)
      | none => (s1.1, s1.2)
  | none => (s1.1, s1.2)

/-- The message event listener plus the parse guard of Room.onMessage:
`try { message = JSON.parse(message) } catch (e) { return }`, with the
parse modelled as an already decoded `Option Msg`. -/
def Room.onRawMessage (room : WRoom) (senderId : String) (decoded : Option Msg)
    (now : Nat) : WRoom × List Event :=
  match decoded with
  | none => (room, [])
  | some m => Room.onMessage room senderId m now

/-- Peer id assignment in Room.fetch (worker.js):
`const peerId = Peer.uuid()` — a fresh uuid on every session, no matter
what identity token the request carried (the code never reads one). -/
def assignId (_cookiePeerid : Option String) (freshUuid : String) : String :=
  freshUuid

/-- Room.fetch (worker.js) never sends a `{type:"peerid"}` frame: no call
site with that payload exists in the file. -/
def sendsPeeridMessage : Bool := false

end Worker

/-! Helper lemmas about the embedded operations. -/

theorem countEvents_append (a b : List Event) (e : Event) :
    countEvents (a ++ b) e = countEvents a e + countEvents b e := by
  induction a with
  | nil => simp [countEvents]
  | cons x r ih => simp [countEvents, ih]; omega

theorem countEvents_map_eq_zero {α : Type} (key : α → String) (pay : Payload)
    (l : List α) (qid : String) (h : ∀ p ∈ l, key p ≠ qid) :
    countEvents (l.map fun p => (key p, pay)) (qid, pay) = 0 := by
  induction l with
  | nil => rfl
  | cons x r ih =>
    have hx : key x ≠ qid := h x (by simp)
    have hrest : ∀ p ∈ r, key p ≠ qid := fun p hp => h p (by simp [hp])
    simp [countEvents, Prod.ext_iff, hx, ih hrest]

theorem countEvents_map_eq_one {α : Type} (key : α → String) (pay : Payload) :
    ∀ (l : List α) (q : α), (l.map key).Nodup → q ∈ l →
      countEvents (l.map fun p => (key p, pay)) (key q, pay) = 1 := by
  intro l
  induction l with
  | nil => intro q _ hq; cases hq
  | cons x r ih =>
    intro q hnd hq
    rw [List.map_cons, List.nodup_cons] at hnd
    obtain ⟨hx, hr⟩ := hnd
    rcases List.mem_cons.mp hq with hqx | hqr
    · subst hqx
      have hzero : ∀ p ∈ r, key p ≠ key q := by
        intro p hp hkey
        exact hx (hkey ▸ List.mem_map_of_mem key hp)
      simp [countEvents, countEvents_map_eq_zero key pay r (key q) hzero]
    · have hne : key x ≠ key q := by
        intro hkey
        exact hx (hkey ▸ List.mem_map_of_mem key hqr)
      simp [countEvents, Prod.ext_iff, hne, ih q hr hqr]

theorem DenoA.broadcast_none (room : DenoA.RoomState) (pay : Payload) :
    DenoA.broadcast room pay none = room.map fun p => (p.id, pay) := by
  induction room with
  | nil => rfl
  | cons p rest ih => simp [DenoA.broadcast, ih]

theorem DenoA.broadcast_some (room : DenoA.RoomState) (pay : Payload) (ex : String)
    (h : ∀ p ∈ room, p.id ≠ ex) :
    DenoA.broadcast room pay (some ex) = room.map fun p => (p.id, pay) := by
  induction room with
  | nil => rfl
  | cons p rest ih =>
    have hp : p.id ≠ ex := h p (by simp)
    simp [DenoA.broadcast, hp, ih (fun q hq => h q (by simp [hq]))]

theorem DenoA.mapSet_fresh (room : DenoA.RoomState) (q : DenoA.Peer)
    (h : ∀ p ∈ room, p.id ≠ q.id) :
    DenoA.mapSet room q = room ++ [q] := by
  induction room with
  | nil => rfl
  | cons p rest ih =>
    have hp : p.id ≠ q.id := h p (by simp)
    simp [DenoA.mapSet, hp, ih (fun x hx => h x (by simp [hx]))]

theorem DenoA.mapSet_ne_nil (room : DenoA.RoomState) (q : DenoA.Peer) :
    DenoA.mapSet room q ≠ [] := by
  cases room with
  | nil => simp [DenoA.mapSet]
  | cons p rest =>
    by_cases hp : p.id = q.id <;> simp [DenoA.mapSet, hp]

theorem DenoA.getPeer_none (room : DenoA.RoomState) (pid : String)
    (h : ∀ p ∈ room, p.id ≠ pid) :
    DenoA.getPeer room pid = none := by
  induction room with
  | nil => rfl
  | cons p rest ih =>
    have hp : p.id ≠ pid := h p (by simp)
    simp [DenoA.getPeer, hp, ih (fun x hx => h x (by simp [hx]))]

theorem DenoA.hasPeer_false (room : DenoA.RoomState) (pid : String)
    (h : ∀ p ∈ room, p.id ≠ pid) :
    DenoA.hasPeer room pid = false := by
  simp [DenoA.hasPeer, DenoA.getPeer_none room pid h]

theorem DenoA.hasPeer_true_of_mem (room : DenoA.RoomState) (q : DenoA.Peer)
    (hm : q ∈ room) (pid : String) (hid : q.id = pid) :
    DenoA.hasPeer room pid = true := by
  induction room with
  | nil => cases hm
  | cons p rest ih =>
    by_cases hp : p.id = pid
    · simp [DenoA.hasPeer, DenoA.getPeer, hp]
    · rcases List.mem_cons.mp hm with hqp | hqr
      · exact absurd (hqp ▸ hid) hp
      · simpa [DenoA.hasPeer, DenoA.getPeer, hp] using ih hqr

theorem DenoA.hasPeer_mapDelete_self (room : DenoA.RoomState) (pid : String)
    (h : (room.map DenoA.Peer.id).Nodup) :
    DenoA.hasPeer (DenoA.mapDelete room pid) pid = false := by
  induction room with
  | nil => rfl
  | cons p rest ih =>
    rw [List.map_cons, List.nodup_cons] at h
    obtain ⟨hx, hr⟩ := h
    by_cases hp : p.id = pid
    · have : ∀ q ∈ rest, q.id ≠ pid := by
        intro q hq hqid
        exact hx (by rw [hp, ← hqid]; exact List.mem_map_of_mem DenoA.Peer.id hq)
      simp [DenoA.mapDelete, hp, DenoA.hasPeer_false rest pid this]
    · simp [DenoA.mapDelete, hp, DenoA.hasPeer, DenoA.getPeer]
      simpa [DenoA.hasPeer] using ih hr

theorem Worker.removeSession_fresh (l : List Worker.WPeer) (pid : String)
    (h : ∀ s ∈ l, s.id ≠ pid) :
    Worker.removeSession l pid = l := by
  induction l with
  | nil => rfl
  | cons s rest ih =>
    have hs : s.id ≠ pid := h s (by simp)
    simp [Worker.removeSession, hs, ih (fun x hx => h x (by simp [hx]))]

theorem Worker.removeSession_append (a b : List Worker.WPeer) (pid : String) :
    Worker.removeSession (a ++ b) pid =
      Worker.removeSession a pid ++ Worker.removeSession b pid := by
  induction a with
  | nil => rfl
  | cons s rest ih =>
    by_cases hs : s.id = pid <;> simp [Worker.removeSession, hs, ih]

theorem Worker.findSession_id (l : List Worker.WPeer) (pid : String) (q : Worker.WPeer)
    (h : Worker.findSession l pid = some q) : q.id = pid := by
  induction l with
  | nil => cases h
  | cons s rest ih =>
    by_cases hs : s.id = pid
    · simp [Worker.findSession, hs] at h
      exact h ▸ hs
    · exact ih (by simpa [Worker.findSession, hs] using h)

theorem DenoA.regLookup_regSet_self (reg : DenoA.Registry) (ip : String)
    (room : DenoA.RoomState) :
    DenoA.regLookup (DenoA.regSet reg ip room) ip = some room := by
  induction reg with
  | nil => simp [DenoA.regSet, DenoA.regLookup]
  | cons e rest ih =>
    by_cases he : e.1 = ip <;> simp [DenoA.regSet, DenoA.regLookup, he, ih]

theorem DenoA.regLookup_regSet_ne (reg : DenoA.Registry) (ip ip' : String)
    (room : DenoA.RoomState) (h : ip' ≠ ip) :
    DenoA.regLookup (DenoA.regSet reg ip room) ip' = DenoA.regLookup reg ip' := by
  have hne : ¬(ip = ip') := fun hc => h hc.symm
  induction reg with
  | nil =>
    simp [DenoA.regSet, DenoA.regLookup, hne]
  | cons e rest ih =>
    by_cases he : e.1 = ip
    · simp [DenoA.regSet, DenoA.regLookup, he, hne]
    · simp [DenoA.regSet, DenoA.regLookup, he, ih]

theorem DenoA.mem_keys_regSet (reg : DenoA.Registry) (ip : String)
    (room : DenoA.RoomState) (x : String)
    (h : x ∈ (DenoA.regSet reg ip room).map Prod.fst) :
    x ∈ reg.map Prod.fst ∨ x = ip := by
  induction reg with
  | nil => simpa [DenoA.regSet] using h
  | cons e rest ih =>
    by_cases he : e.1 = ip
    · simp [DenoA.regSet, he] at h
      rcases h with h | h
      · exact Or.inr h
      · exact Or.inl (by simp [h])
    · simp [DenoA.regSet, he] at h
      rcases h with h | h
      · exact Or.inl (by simp [h])
      · rcases ih (by simpa using h) with h2 | h2
        · exact Or.inl (by simp; exact Or.inr (by simpa using h2))
        · exact Or.inr h2

theorem DenoA.nodup_keys_regSet (reg : DenoA.Registry) (ip : String)
    (room : DenoA.RoomState) (h : (reg.map Prod.fst).Nodup) :
    ((DenoA.regSet reg ip room).map Prod.fst).Nodup := by
  induction reg with
  | nil => simp [DenoA.regSet]
  | cons e rest ih =>
    rw [List.map_cons, List.nodup_cons] at h
    obtain ⟨hx, hr⟩ := h
    by_cases he : e.1 = ip
    · rw [DenoA.regSet, if_pos he, List.map_cons, List.nodup_cons]
      exact ⟨he ▸ hx, hr⟩
    · have hnm : e.1 ∉ (DenoA.regSet rest ip room).map Prod.fst := by
        intro hc
        rcases DenoA.mem_keys_regSet rest ip room e.1 hc with hc2 | hc2
        · exact hx hc2
        · exact he hc2
      rw [DenoA.regSet, if_neg he, List.map_cons, List.nodup_cons]
      exact ⟨hnm, ih hr⟩

theorem DenoA.regErase_sublist (reg : DenoA.Registry) (ip : String) :
    List.Sublist (DenoA.regErase reg ip) reg := by
  induction reg with
  | nil => simp [DenoA.regErase]
  | cons e rest ih =>
    by_cases he : e.1 = ip
    · rw [DenoA.regErase, if_pos he]
      exact List.sublist_cons_self e rest
    · rw [DenoA.regErase, if_neg he]
      exact List.Sublist.cons₂ e ih

theorem DenoA.regLookup_none_of_not_mem_keys (reg : DenoA.Registry) (ip : String)
    (h : ip ∉ reg.map Prod.fst) :
    DenoA.regLookup reg ip = none := by
  induction reg with
  | nil => rfl
  | cons e rest ih =>
    have he : e.1 ≠ ip := by
      intro hc
      exact h (by simp [hc])
    simp [DenoA.regLookup, he, ih (fun hc => h (by simp [hc]))]

theorem DenoA.regLookup_regErase_self (reg : DenoA.Registry) (ip : String)
    (h : (reg.map Prod.fst).Nodup) :
    DenoA.regLookup (DenoA.regErase reg ip) ip = none := by
  induction reg with
  | nil => rfl
  | cons e rest ih =>
    rw [List.map_cons, List.nodup_cons] at h
    obtain ⟨hx, hr⟩ := h
    by_cases he : e.1 = ip
    · have hnm : ip ∉ rest.map Prod.fst := he ▸ hx
      simp [DenoA.regErase, he, DenoA.regLookup_none_of_not_mem_keys rest ip hnm]
    · simp [DenoA.regErase, DenoA.regLookup, he, ih hr]

theorem DenoA.regLookup_regErase_ne (reg : DenoA.Registry) (ip ip' : String)
    (h : ip' ≠ ip) :
    DenoA.regLookup (DenoA.regErase reg ip) ip' = DenoA.regLookup reg ip' := by
  induction reg with
  | nil => rfl
  | cons e rest ih =>
    by_cases he : e.1 = ip
    · have hne : ¬(ip = ip') := fun hc => h hc.symm
      simp [DenoA.regErase, he, DenoA.regLookup, hne]
    · simp [DenoA.regErase, DenoA.regLookup, he, ih]

theorem DenoA.mem_regSet (reg : DenoA.Registry) (ip : String) (room : DenoA.RoomState)
    (e : String × DenoA.RoomState) (h : e ∈ DenoA.regSet reg ip room) :
    e ∈ reg ∨ e = (ip, room) := by
  induction reg with
  | nil => simpa [DenoA.regSet] using h
  | cons x rest ih =>
    by_cases hx : x.1 = ip
    · simp [DenoA.regSet, hx] at h
      rcases h with h | h
      · exact Or.inr (by simp [h])
      · exact Or.inl (by simp [h])
    · simp [DenoA.regSet, hx] at h
      rcases h with h | h
      · exact Or.inl (by simp [h])
      · rcases ih (by simpa using h) with h2 | h2
        · exact Or.inl (by simp [h2])
        · exact Or.inr h2

theorem DenoA.mem_regErase (reg : DenoA.Registry) (ip : String)
    (e : String × DenoA.RoomState) (h : e ∈ DenoA.regErase reg ip) :
    e ∈ reg :=
  (DenoA.regErase_sublist reg ip).subset h

theorem DenoA.regSet_regSet (reg : DenoA.Registry) (ip : String)
    (v w : DenoA.RoomState) :
    DenoA.regSet (DenoA.regSet reg ip v) ip w = DenoA.regSet reg ip w := by
  induction reg with
  | nil => simp [DenoA.regSet]
  | cons e rest ih =>
    by_cases he : e.1 = ip
    · simp [DenoA.regSet, he]
    · simp [DenoA.regSet, he, ih]

theorem DenoA.mem_regErase_ne (reg : DenoA.Registry) (ip : String)
    (e : String × DenoA.RoomState) (hnd : (reg.map Prod.fst).Nodup)
    (h : e ∈ DenoA.regErase reg ip) :
    e ∈ reg ∧ e.1 ≠ ip := by
  induction reg with
  | nil => cases h
  | cons x rest ih =>
    rw [List.map_cons, List.nodup_cons] at hnd
    obtain ⟨hx, hr⟩ := hnd
    by_cases hxe : x.1 = ip
    · rw [DenoA.regErase, if_pos hxe] at h
      refine ⟨List.mem_cons_of_mem x h, ?_⟩
      intro hc
      exact hx (hxe ▸ hc ▸ List.mem_map_of_mem Prod.fst h)
    · rw [DenoA.regErase, if_neg hxe] at h
      rcases List.mem_cons.mp h with hex | hem
      · refine ⟨?_, ?_⟩
        · rw [hex]
          exact List.mem_cons_self x rest
        · rw [hex]
          exact hxe
      · obtain ⟨hm, hne⟩ := ih hr hem
        exact ⟨List.mem_cons_of_mem x hm, hne⟩

/-! Claim theorems. -/

/-- C8: an inbound frame whose payload fails to decode as well-formed JSON
is dropped silently at both message boundaries: no action is taken, the
room state is unchanged, and nothing is sent (the embedding is total, so no
exception escapes the boundary). -/
theorem C8_malformed_frame_dropped :
    (∀ (senderId : String) (room : DenoA.RoomState),
      DenoA.onRawMessage none senderId room = []) ∧
    (∀ (room : Worker.WRoom) (senderId : String) (now : Nat),
      Worker.Room.onRawMessage room senderId none now = (room, [])) :=
  ⟨fun _ _ => rfl, fun _ _ _ => rfl⟩

/-- C10: the relay does not exclude the sender as a recipient. For a relay
frame (type neither pong nor disconnect) whose to field names the sender
itself, worker.js finds the sender among the sessions and sends the message
back to it with sender stamped to its own id, deno.ts handleMessage
forwards it back through the same relay branch, and the legacy deno.ts
onMessage looks the sender up in its own room, deletes to, stamps sender,
and sends the frame back to it. -/
theorem C10_self_relay :
    (∀ (room : Worker.WRoom) (m : Msg) (q : Worker.WPeer) (sId : String) (now : Nat),
      m.type? ≠ some "pong" → m.type? ≠ some "disconnect" →
      m.to? = some sId → sId ≠ "" →
      Worker.findSession room.sessions sId = some q → q.sendFails = false →
      q.id = sId ∧
        Worker.Room.onMessage room sId m now =
          (room, [(sId, Payload.relayed { m with to? := none, sender? := some sId })])) ∧
    (∀ (room : DenoA.RoomState) (m : Msg) (sId : String),
      m.type? ≠ some "pong" → m.type? ≠ some "disconnect" →
      m.to? = some sId → sId ≠ "" → DenoA.hasPeer room sId = true →
      DenoA.handleMessage sId m room =
        [DenoA.AAction.forward sId { m with sender? := some sId }]) ∧
    (∀ (room : DenoB.BRoom) (m : Msg) (q : DenoB.BPeer) (sId : String) (beat now : Nat),
      m.type? ≠ some "pong" → m.type? ≠ some "disconnect" →
      m.to? = some sId → sId ≠ "" →
      DenoB.roomGet room sId = some q → q.id = sId → q.socketOpen = true →
      DenoB.onMessage (some room) sId beat m now =
        (some room, beat,
          [(sId, Payload.relayed { m with to? := none, sender? := some sId })])) := by
  refine ⟨?_, ?_, ?_⟩
  · intro room m q sId now hp hd hto hne hfind hfail
    have hqid : q.id = sId := Worker.findSession_id room.sessions sId q hfind
    refine ⟨hqid, ?_⟩
    simp [Worker.Room.onMessage, Worker.Room.send, hp, hd, hto, hne, hfind, hfail, hqid]
  · intro room m sId hp hd hto hne hhas
    simp [DenoA.handleMessage, hp, hd, hto, hne, hhas]
  · intro room m q sId beat now hp hd hto hne hget hqid hopen
    simp [DenoB.onMessage, DenoB.sendTo, hp, hd, hto, hne, hget, hqid, hopen]

/-- C10 witness: a single-member room whose member addresses itself, in all
three implementations. -/
theorem C10_self_relay_witness :
    Worker.Room.onMessage ⟨[⟨"a", "d", "n", true, false⟩], [("a", 0)]⟩ "a"
        ⟨some "offer", some "a", none, [("x", "y")]⟩ 7 =
      (⟨[⟨"a", "d", "n", true, false⟩], [("a", 0)]⟩,
        [("a", Payload.relayed ⟨some "offer", none, some "a", [("x", "y")]⟩)]) ∧
    DenoA.handleMessage "a" ⟨some "offer", some "a", none, [("x", "y")]⟩
        [⟨"a", "d", "n", true⟩] =
      [DenoA.AAction.forward "a" ⟨some "offer", some "a", some "a", [("x", "y")]⟩] ∧
    DenoB.onMessage (some [("a", ⟨"a", true⟩)]) "a" 2
        ⟨some "offer", some "a", none, [("x", "y")]⟩ 7 =
      (some [("a", ⟨"a", true⟩)], 2,
        [("a", Payload.relayed ⟨some "offer", none, some "a", [("x", "y")]⟩)]) :=
  ⟨(C10_self_relay.1 ⟨[⟨"a", "d", "n", true, false⟩], [("a", 0)]⟩
      ⟨some "offer", some "a", none, [("x", "y")]⟩ ⟨"a", "d", "n", true, false⟩ "a" 7
      (by decide) (by decide) rfl (by decide) (by decide) rfl).2,
   C10_self_relay.2.1 [⟨"a", "d", "n", true⟩] ⟨some "offer", some "a", none, [("x", "y")]⟩
      "a" (by decide) (by decide) rfl (by decide) (by decide),
   C10_self_relay.2.2 [("a", ⟨"a", true⟩)] ⟨some "offer", some "a", none, [("x", "y")]⟩
      ⟨"a", true⟩ "a" 2 7 (by decide) (by decide) rfl (by decide) (by decide) rfl rfl⟩

/-- C1 counterexample: deno.ts handleMessage forwards the message with the
to field still present, so the delivered message is not stripped of to as
the claim states. -/
theorem C1_addressed_relay_counterexample :
    DenoA.handleMessage "a" ⟨some "offer", some "b", none, [("sdp", "x")]⟩
        [⟨"b", "d", "n", true⟩] =
      [DenoA.AAction.forward "b" ⟨some "offer", some "b", some "a", [("sdp", "x")]⟩] ∧
    Msg.to? ⟨some "offer", some "b", some "a", [("sdp", "x")]⟩ ≠ none := by
  exact ⟨by decide, by decide⟩

/-- C1 (amended): for a relay frame (type neither pong nor disconnect)
whose to field names a peer present in the Room, the relay stamps a sender
field equal to the originating peer id and forwards the otherwise unchanged
message to exactly that recipient; worker.js additionally removes the to
field (the delivered message has no to field), while deno.ts handleMessage
leaves the to field in place in the delivered message. -/
theorem C1_addressed_relay :
    (∀ (room : Worker.WRoom) (m : Msg) (q : Worker.WPeer) (sId t : String) (now : Nat),
      m.type? ≠ some "pong" → m.type? ≠ some "disconnect" →
      m.to? = some t → t ≠ "" →
      Worker.findSession room.sessions t = some q → q.sendFails = false →
      Worker.Room.onMessage room sId m now =
        (room, [(t, Payload.relayed { m with to? := none, sender? := some sId })])) ∧
    (∀ (room : DenoA.RoomState) (m : Msg) (sId t : String),
      m.type? ≠ some "pong" → m.type? ≠ some "disconnect" →
      m.to? = some t → t ≠ "" → DenoA.hasPeer room t = true →
      DenoA.handleMessage sId m room =
        [DenoA.AAction.forward t { m with sender? := some sId }] ∧
      Msg.to? { m with sender? := some sId } = some t) := by
  constructor
  · intro room m q sId t now hp hd hto hne hfind hfail
    have hqid : q.id = t := Worker.findSession_id room.sessions t q hfind
    simp [Worker.Room.onMessage, Worker.Room.send, hp, hd, hto, hne, hfind, hfail, hqid]
  · intro room m sId t hp hd hto hne hhas
    constructor
    · simp [DenoA.handleMessage, hp, hd, hto, hne, hhas]
    · simpa using hto

/-- C1 witness: a two-member worker room relays from a to b with to
removed; a deno room forwards to b with sender stamped. -/
theorem C1_addressed_relay_witness :
    Worker.Room.onMessage
        ⟨[⟨"a", "d", "n", true, false⟩, ⟨"b", "d", "n", true, false⟩], []⟩ "a"
        ⟨some "offer", some "b", none, [("sdp", "x")]⟩ 3 =
      (⟨[⟨"a", "d", "n", true, false⟩, ⟨"b", "d", "n", true, false⟩], []⟩,
        [("b", Payload.relayed ⟨some "offer", none, some "a", [("sdp", "x")]⟩)]) ∧
    DenoA.handleMessage "c" ⟨some "offer", some "b", none, []⟩ [⟨"b", "d", "n", true⟩] =
      [DenoA.AAction.forward "b" ⟨some "offer", some "b", some "c", []⟩] :=
  ⟨C1_addressed_relay.1
      ⟨[⟨"a", "d", "n", true, false⟩, ⟨"b", "d", "n", true, false⟩], []⟩
      ⟨some "offer", some "b", none, [("sdp", "x")]⟩ ⟨"b", "d", "n", true, false⟩
      "a" "b" 3 (by decide) (by decide) rfl (by decide) (by decide) rfl,
   (C1_addressed_relay.2 [⟨"b", "d", "n", true⟩] ⟨some "offer", some "b", none, []⟩
      "c" "b" (by decide) (by decide) rfl (by decide) (by decide)).1⟩

/-- C4 counterexample: in worker.js a frame of type pong with a resolvable
to field both records the heartbeat and is forwarded, contradicting the
claim that such a frame is never forwarded. -/
theorem C4_dispatch_precedence_counterexample :
    Worker.Room.onMessage
        ⟨[⟨"a", "d", "n", true, false⟩, ⟨"b", "d", "n", true, false⟩],
          [("a", 0), ("b", 0)]⟩
        "a" ⟨some "pong", some "b", none, []⟩ 5 =
      (⟨[⟨"a", "d", "n", true, false⟩, ⟨"b", "d", "n", true, false⟩],
          [("a", 5), ("b", 0)]⟩,
        [("b", Payload.relayed ⟨some "pong", none, some "a", []⟩)]) := by decide

/-- C4 (amended): deno.ts handleMessage applies strict precedence — a pong
frame only records a heartbeat, a disconnect frame only closes the sender,
and neither is ever forwarded; in worker.js the relay clause runs after the
type switch for every frame, so a pong frame with a resolvable to field is
both heartbeat-recorded and forwarded. -/
theorem C4_dispatch_precedence :
    (∀ (sId : String) (m : Msg) (room : DenoA.RoomState),
      m.type? = some "pong" →
      DenoA.handleMessage sId m room = [DenoA.AAction.recordPong]) ∧
    (∀ (sId : String) (m : Msg) (room : DenoA.RoomState),
      m.type? = some "disconnect" →
      DenoA.handleMessage sId m room = [DenoA.AAction.closeSender]) ∧
    (∀ (room : Worker.WRoom) (m : Msg) (q : Worker.WPeer) (sId t : String) (now : Nat),
      m.type? = some "pong" → m.to? = some t → t ≠ "" →
      Worker.findSession room.sessions t = some q → q.sendFails = false →
      Worker.Room.onMessage room sId m now =
        ({ room with lastBeat := Worker.setBeat room.lastBeat sId now },
          [(t, Payload.relayed { m with to? := none, sender? := some sId })])) := by
  refine ⟨?_, ?_, ?_⟩
  · intro sId m room hp
    simp [DenoA.handleMessage, hp]
  · intro sId m room hd
    simp [DenoA.handleMessage, hd]
  · intro room m q sId t now hp hto hne hfind hfail
    have hqid : q.id = t := Worker.findSession_id room.sessions t q hfind
    simp [Worker.Room.onMessage, Worker.Room.send, hp, hto, hne, hfind, hfail, hqid]

/-- C4 witness: concrete frames through both dispatchers. -/
theorem C4_dispatch_precedence_witness :
    DenoA.handleMessage "a" ⟨some "pong", some "b", none, []⟩ [⟨"b", "d", "n", true⟩] =
      [DenoA.AAction.recordPong] ∧
    DenoA.handleMessage "a" ⟨some "disconnect", some "b", none, []⟩
        [⟨"b", "d", "n", true⟩] =
      [DenoA.AAction.closeSender] ∧
    Worker.Room.onMessage ⟨[⟨"b", "d", "n", true, false⟩], []⟩ "a"
        ⟨some "pong", some "b", none, []⟩ 9 =
      (⟨[⟨"b", "d", "n", true, false⟩], Worker.setBeat [] "a" 9⟩,
        [("b", Payload.relayed ⟨some "pong", none, some "a", []⟩)]) :=
  ⟨C4_dispatch_precedence.1 "a" ⟨some "pong", some "b", none, []⟩
      [⟨"b", "d", "n", true⟩] rfl,
   C4_dispatch_precedence.2.1 "a" ⟨some "disconnect", some "b", none, []⟩
      [⟨"b", "d", "n", true⟩] rfl,
   C4_dispatch_precedence.2.2 ⟨[⟨"b", "d", "n", true, false⟩], []⟩
      ⟨some "pong", some "b", none, []⟩ ⟨"b", "d", "n", true, false⟩
      "a" "b" 9 rfl rfl (by decide) (by decide) rfl⟩

/-- C2 counterexample: worker.js leaveRoom, invoked for an id that is not
in the Room, still broadcasts peer-left to every remaining member, so a
second teardown re-broadcasts instead of being a silent no-op. -/
theorem C2_teardown_idempotent_counterexample :
    (Worker.Room.leaveRoom ⟨[⟨"b", "d", "n", true, false⟩], [("b", 0)]⟩ "a").2 =
      [("b", Payload.peerLeft "a")] := by decide

/-- C2 (amended): deno.ts Room.removePeer is idempotent — removal of an
absent id is a no-op broadcasting nothing, and after a successful removal
(which sends each remaining member exactly the peer-left event) a second
removal is a no-op, so every teardown sequence yields one peer-left per
remaining member; worker.js leaveRoom has no presence guard and broadcasts
peer-left over the remaining sessions on every invocation, so a double
teardown there re-broadcasts. -/
theorem C2_teardown_idempotent :
    (∀ (room : DenoA.RoomState) (pid : String),
      DenoA.hasPeer room pid = false →
      DenoA.Room.removePeer room pid = (room, [])) ∧
    (∀ (room : DenoA.RoomState) (pid : String),
      (room.map DenoA.Peer.id).Nodup → DenoA.hasPeer room pid = true →
      DenoA.Room.removePeer room pid =
        (DenoA.mapDelete room pid,
          (DenoA.mapDelete room pid).map fun q => (q.id, Payload.peerLeft pid)) ∧
      DenoA.Room.removePeer (DenoA.mapDelete room pid) pid =
        (DenoA.mapDelete room pid, [])) ∧
    (∀ (room : Worker.WRoom) (pid : String),
      (∀ s ∈ room.sessions, s.id ≠ pid) →
      (Worker.Room.leaveRoom room pid).2 =
        room.sessions.map fun q => (q.id, Payload.peerLeft pid)) := by
  refine ⟨?_, ?_, ?_⟩
  · intro room pid h
    simp [DenoA.Room.removePeer, h]
  · intro room pid hnd hhas
    have hafter : DenoA.hasPeer (DenoA.mapDelete room pid) pid = false :=
      DenoA.hasPeer_mapDelete_self room pid hnd
    constructor
    · simp [DenoA.Room.removePeer, hhas, DenoA.broadcast_none]
    · simp [DenoA.Room.removePeer, hafter]
  · intro room pid h
    simp [Worker.Room.leaveRoom, Worker.removeSession_fresh room.sessions pid h]

/-- C2 witness: a no-op removal, a successful removal followed by a no-op,
and one worker re-broadcast. -/
theorem C2_teardown_idempotent_witness :
    DenoA.Room.removePeer [⟨"b", "d", "n", true⟩] "a" =
      ([⟨"b", "d", "n", true⟩], []) ∧
    DenoA.Room.removePeer [⟨"a", "d", "n", true⟩, ⟨"b", "d", "n", true⟩] "a" =
      ([⟨"b", "d", "n", true⟩], [("b", Payload.peerLeft "a")]) ∧
    (Worker.Room.leaveRoom ⟨[⟨"b", "d", "n", true, false⟩], []⟩ "a").2 =
      [("b", Payload.peerLeft "a")] :=
  ⟨C2_teardown_idempotent.1 [⟨"b", "d", "n", true⟩] "a" (by decide),
   (C2_teardown_idempotent.2.1 [⟨"a", "d", "n", true⟩, ⟨"b", "d", "n", true⟩] "a"
      (by decide) (by decide)).1,
   C2_teardown_idempotent.2.2 ⟨[⟨"b", "d", "n", true, false⟩], []⟩ "a" (by decide)⟩

/-- C6 counterexample: deno.ts Peer.send on a not open socket produces no
effect at all — no write and no removal — contradicting the claim that a
not open connection triggers the Room removal path. -/
theorem C6_send_behavior_counterexample :
    DenoA.Peer.send false Payload.ping = [] := by decide

/-- C6 (amended): the deno implementations serialize and write only when
the connection is open and otherwise silently do nothing — no branch of
either send ever triggers a removal; worker.js Room.send always attempts
the write and a throwing write runs the full leaveRoom removal path for
that peer, while a successful write just emits the frame. -/
theorem C6_send_behavior :
    (∀ m, DenoA.Peer.send true m = [SendEffect.wrote m]) ∧
    (∀ m, DenoA.Peer.send false m = []) ∧
    (∀ (so : Bool) (m : Payload), SendEffect.removalTriggered ∉ DenoA.Peer.send so m) ∧
    (∀ (pp so : Bool) (m : Payload), SendEffect.removalTriggered ∉ DenoB.send pp so m) ∧
    (∀ (room : Worker.WRoom) (p : Worker.WPeer) (pay : Payload),
      p.sendFails = true →
      Worker.Room.send room p pay = Worker.Room.leaveRoom room p.id) ∧
    (∀ (room : Worker.WRoom) (p : Worker.WPeer) (pay : Payload),
      p.sendFails = false →
      Worker.Room.send room p pay = (room, [(p.id, pay)])) := by
  refine ⟨fun m => rfl, fun m => rfl, ?_, ?_, ?_, ?_⟩
  · intro so m
    cases so <;> simp [DenoA.Peer.send]
  · intro pp so m
    cases pp <;> cases so <;> simp [DenoB.send]
  · intro room p pay h
    simp [Worker.Room.send, h]
  · intro room p pay h
    simp [Worker.Room.send, h]

/-- C6 witness: a failing worker send runs leaveRoom; a succeeding one
emits the frame. -/
theorem C6_send_behavior_witness :
    Worker.Room.send
        ⟨[⟨"a", "d", "n", true, true⟩, ⟨"b", "d", "n", true, false⟩], [("a", 0)]⟩
        ⟨"a", "d", "n", true, true⟩ Payload.ping =
      Worker.Room.leaveRoom
        ⟨[⟨"a", "d", "n", true, true⟩, ⟨"b", "d", "n", true, false⟩], [("a", 0)]⟩ "a" ∧
    Worker.Room.send ⟨[⟨"b", "d", "n", true, false⟩], []⟩
        ⟨"b", "d", "n", true, false⟩ Payload.ping =
      (⟨[⟨"b", "d", "n", true, false⟩], []⟩, [("b", Payload.ping)]) :=
  ⟨C6_send_behavior.2.2.2.2.1
      ⟨[⟨"a", "d", "n", true, true⟩, ⟨"b", "d", "n", true, false⟩], [("a", 0)]⟩
      ⟨"a", "d", "n", true, true⟩ Payload.ping rfl,
   C6_send_behavior.2.2.2.2.2 ⟨[⟨"b", "d", "n", true, false⟩], []⟩
      ⟨"b", "d", "n", true, false⟩ Payload.ping rfl⟩

/-- C7 counterexample: worker.js assigns a fresh uuid even when a non-empty
identity token is supplied, and it never sends the peerid notification even
though the id was freshly generated. -/
theorem C7_identity_assignment_counterexample :
    Worker.assignId (some "abc") "u0" = "u0" ∧ "u0" ≠ "abc" ∧
      Worker.sendsPeeridMessage = false := by decide

/-- C7 (amended): in deno.ts the id reuses a present non-empty cookie token
and otherwise falls back to the fresh uuid, and the peerid notification is
sent exactly when no reusable token was supplied; in worker.js every
session gets a freshly generated id regardless of any token, and no peerid
notification is ever sent. -/
theorem C7_identity_assignment :
    (∀ u, DenoA.assignId none u = u) ∧
    (∀ u, DenoA.assignId (some "") u = u) ∧
    (∀ u c, c ≠ "" → DenoA.assignId (some c) u = c) ∧
    (∀ c, DenoA.sendsPeeridMessage c = true ↔ (c = none ∨ c = some "")) ∧
    (∀ c u, Worker.assignId c u = u) ∧
    Worker.sendsPeeridMessage = false := by
  refine ⟨fun u => rfl, fun u => rfl, ?_, ?_, fun c u => rfl, rfl⟩
  · intro u c h
    simp [DenoA.assignId, h]
  · intro c
    cases c with
    | none => simp [DenoA.sendsPeeridMessage]
    | some c => simp [DenoA.sendsPeeridMessage]

/-- C7 witness: a non-empty cookie token is reused in deno.ts. -/
theorem C7_identity_assignment_witness :
    DenoA.assignId (some "abc") "u1" = "abc" :=
  C7_identity_assignment.2.2.1 "u1" "abc" (by decide)

/-- Timer firings never set leftRoom in the legacy keepalive model. -/
theorem DenoB.runTimers_leftRoom (st : DenoB.KAState) (n : Nat) :
    (DenoB.runTimers st n).leftRoom = st.leftRoom := by
  induction n with
  | zero => rfl
  | succ n ih => simp [DenoB.runTimers, DenoB.fireTimer, ih]

/-- C5: the keepalive tick semantics. In the class based deno
implementation a tick closes the peer exactly when now minus lastBeat
exceeds twice the interval, a peer that never answers is closed by the
third tick, and a peer whose heartbeat is refreshed every interval is never
closed. In the legacy deno implementation, however, the rescheduled
callback evaluates the keepAlive method reference without invoking it, so
after the initial call no further tick ever runs and a peer that never
answers any ping is never removed — the code diverges from the claim
there. -/
theorem C5_keepalive_schedule :
    (∀ t0 n, (DenoB.runTimers (DenoB.keepAlive t0
        { lastBeat := t0, timerPending := false, leftRoom := false }) n).leftRoom =
      false) ∧
    (∀ now lb, DenoA.keepAliveTick now lb = DenoA.TickOutcome.closedPeer ↔
        now - lb > DenoA.KEEPALIVE_INTERVAL * 2) ∧
    (∀ t0, DenoA.closedByTick t0 (fun _ => t0) 3 = true) ∧
    (∀ t0 n, DenoA.closedByTick t0 (fun i => t0 + i * DenoA.KEEPALIVE_INTERVAL) n =
      false) := by
  refine ⟨?_, ?_, ?_, ?_⟩
  · intro t0 n
    rw [DenoB.runTimers_leftRoom]
    simp [DenoB.keepAlive]
  · intro now lb
    by_cases h : now - lb > DenoA.KEEPALIVE_INTERVAL * 2
    · simp [DenoA.keepAliveTick, h]
    · simp [DenoA.keepAliveTick, h]
  · intro t0
    have h1 : DenoA.keepAliveTick (t0 + 3 * DenoA.KEEPALIVE_INTERVAL) t0 =
        DenoA.TickOutcome.closedPeer := by
      have hgt : t0 + 3 * 30000 - t0 > 30000 * 2 := by omega
      unfold DenoA.keepAliveTick DenoA.KEEPALIVE_INTERVAL
      rw [if_pos hgt]
    simp [DenoA.closedByTick, h1]
  · intro t0 n
    induction n with
    | zero => rfl
    | succ n ih =>
      have htick : DenoA.keepAliveTick (t0 + (n + 1) * DenoA.KEEPALIVE_INTERVAL)
          (t0 + n * DenoA.KEEPALIVE_INTERVAL) = DenoA.TickOutcome.pinged := by
        have hle : ¬(t0 + (n + 1) * 30000 - (t0 + n * 30000) > 30000 * 2) := by omega
        unfold DenoA.keepAliveTick DenoA.KEEPALIVE_INTERVAL
        rw [if_neg hle]
      simp [DenoA.closedByTick, ih, htick]

/-- C3: the join protocol. For a joiner whose id is fresh, both
implementations (a) send each pre-existing member exactly one peer-joined
event naming the joiner and never themselves, (b) send the joiner a peers
snapshot equal to the membership immediately prior to its insertion (hence
never containing the joiner), and (c) end with the joiner appended to the
membership. -/
theorem C3_join_protocol :
    (∀ (room : DenoA.RoomState) (peer : DenoA.Peer),
      (∀ q ∈ room, q.id ≠ peer.id) → (room.map DenoA.Peer.id).Nodup →
      DenoA.Room.addPeer room peer =
        (room ++ [peer],
          room.map (fun q => (q.id, Payload.peerJoined peer.getInfo)) ++
            [(peer.id, Payload.peersList (room.map DenoA.Peer.getInfo))]) ∧
      (∀ info ∈ room.map DenoA.Peer.getInfo, info.id ≠ peer.id) ∧
      (∀ q ∈ room,
        countEvents (DenoA.Room.addPeer room peer).2
          (q.id, Payload.peerJoined peer.getInfo) = 1 ∧
        (DenoA.Peer.getInfo peer).id ≠ q.id)) ∧
    (∀ (room : Worker.WRoom) (peer : Worker.WPeer) (now : Nat),
      (∀ s ∈ room.sessions, s.id ≠ peer.id) →
      (room.sessions.map Worker.WPeer.id).Nodup →
      Worker.Room.fetchJoin room peer now =
        (⟨room.sessions ++ [peer], Worker.setBeat room.lastBeat peer.id now⟩,
          room.sessions.map (fun q => (q.id, Payload.peerJoined peer.getInfo)) ++
            [(peer.id, Payload.peersList (room.sessions.map Worker.WPeer.getInfo))]) ∧
      (∀ info ∈ room.sessions.map Worker.WPeer.getInfo, info.id ≠ peer.id) ∧
      (∀ q ∈ room.sessions,
        countEvents (Worker.Room.fetchJoin room peer now).2
          (q.id, Payload.peerJoined peer.getInfo) = 1 ∧
        (Worker.WPeer.getInfo peer).id ≠ q.id)) := by
  constructor
  · intro room peer hfresh hnd
    have hb : DenoA.broadcast room (Payload.peerJoined peer.getInfo) (some peer.id) =
        room.map fun q => (q.id, Payload.peerJoined peer.getInfo) :=
      DenoA.broadcast_some room _ peer.id hfresh
    have hset : DenoA.mapSet room peer = room ++ [peer] :=
      DenoA.mapSet_fresh room peer hfresh
    have hout : (DenoA.Room.addPeer room peer).2 =
        room.map (fun q => (q.id, Payload.peerJoined peer.getInfo)) ++
          [(peer.id, Payload.peersList (room.map DenoA.Peer.getInfo))] := by
      simp [DenoA.Room.addPeer, hb]
    refine ⟨?_, ?_, ?_⟩
    · simp [DenoA.Room.addPeer, hb, hset]
    · intro info hinfo
      rcases List.mem_map.mp hinfo with ⟨q, hq, hqe⟩
      rw [← hqe]
      simpa [DenoA.Peer.getInfo] using hfresh q hq
    · intro q hq
      constructor
      · rw [hout, countEvents_append,
          countEvents_map_eq_one DenoA.Peer.id (Payload.peerJoined peer.getInfo) room q hnd hq]
        simp [countEvents]
      · simpa [DenoA.Peer.getInfo] using (hfresh q hq).symm
  · intro room peer now hfresh hnd
    have hsingle : Worker.removeSession [peer] peer.id = [] := by
      simp [Worker.removeSession]
    have hothers : Worker.removeSession (room.sessions ++ [peer]) peer.id =
        room.sessions := by
      rw [Worker.removeSession_append,
        Worker.removeSession_fresh room.sessions peer.id hfresh, hsingle,
        List.append_nil]
    have hout : (Worker.Room.fetchJoin room peer now).2 =
        room.sessions.map (fun q => (q.id, Payload.peerJoined peer.getInfo)) ++
          [(peer.id, Payload.peersList (room.sessions.map Worker.WPeer.getInfo))] := by
      simp [Worker.Room.fetchJoin, Worker.Room.joinRoom, hothers]
    refine ⟨?_, ?_, ?_⟩
    · simp [Worker.Room.fetchJoin, Worker.Room.joinRoom, hothers]
    · intro info hinfo
      rcases List.mem_map.mp hinfo with ⟨q, hq, hqe⟩
      rw [← hqe]
      simpa [Worker.WPeer.getInfo] using hfresh q hq
    · intro q hq
      constructor
      · rw [hout, countEvents_append,
          countEvents_map_eq_one Worker.WPeer.id (Payload.peerJoined peer.getInfo)
            room.sessions q hnd hq]
        simp [countEvents]
      · simpa [Worker.WPeer.getInfo] using (hfresh q hq).symm

/-- C3 witness: peer a joins a room already holding peer b. -/
theorem C3_join_protocol_witness :
    DenoA.Room.addPeer [⟨"b", "d", "n", true⟩] ⟨"a", "e", "m", false⟩ =
      ([⟨"b", "d", "n", true⟩, ⟨"a", "e", "m", false⟩],
        [("b", Payload.peerJoined ⟨"a", "e", "m", false⟩),
          ("a", Payload.peersList [⟨"b", "d", "n", true⟩])]) ∧
    Worker.Room.fetchJoin ⟨[⟨"b", "d", "n", true, false⟩], []⟩
        ⟨"a", "e", "m", false, false⟩ 4 =
      (⟨[⟨"b", "d", "n", true, false⟩, ⟨"a", "e", "m", false, false⟩], [("a", 4)]⟩,
        [("b", Payload.peerJoined ⟨"a", "e", "m", false⟩),
          ("a", Payload.peersList [⟨"b", "d", "n", true⟩])]) :=
  ⟨(C3_join_protocol.1 [⟨"b", "d", "n", true⟩] ⟨"a", "e", "m", false⟩
      (by decide) (by decide)).1,
   (C3_join_protocol.2 ⟨[⟨"b", "d", "n", true, false⟩], []⟩
      ⟨"a", "e", "m", false, false⟩ 4 (by decide) (by decide)).1⟩

/-- C9: the registry invariant. The empty registry is well formed; the
open-handler step (getOrCreateRoom plus addPeer) and the onDisconnect step
(removePeer plus removeRoomIfEmpty) both preserve the invariant that every
registered Room holds at least one peer; tearing down the only member of a
Room removes its registry entry in the same step; and a join under a key
with no entry yields a brand-new Room holding exactly the joiner, whose
peers snapshot is empty (no memory of prior membership). -/
theorem C9_registry_invariant :
    DenoA.regWF [] ∧
    (∀ (reg : DenoA.Registry) (ip : String) (peer : DenoA.Peer),
      DenoA.regWF reg → DenoA.regWF (DenoA.openConn reg ip peer).1) ∧
    (∀ (reg : DenoA.Registry) (ip pid : String),
      DenoA.regWF reg → DenoA.regWF (DenoA.teardownConn reg ip pid).1) ∧
    (∀ (reg : DenoA.Registry) (ip : String) (p : DenoA.Peer),
      DenoA.regWF reg → DenoA.regLookup reg ip = some [p] →
      DenoA.regLookup (DenoA.teardownConn reg ip p.id).1 ip = none) ∧
    (∀ (reg : DenoA.Registry) (ip : String) (peer : DenoA.Peer),
      DenoA.regLookup reg ip = none →
      DenoA.regLookup (DenoA.openConn reg ip peer).1 ip = some [peer] ∧
      (DenoA.openConn reg ip peer).2 = [(peer.id, Payload.peersList [])]) := by
  refine ⟨⟨List.nodup_nil, by intro e he; cases he⟩, ?_, ?_, ?_, ?_⟩
  · intro reg ip peer hwf
    obtain ⟨hnd, hne⟩ := hwf
    cases hlk : DenoA.regLookup reg ip with
    | none =>
      have hres : (DenoA.openConn reg ip peer).1 =
          DenoA.regSet reg ip (DenoA.mapSet [] peer) := by
        simp [DenoA.openConn, DenoA.RoomManager.getOrCreateRoom, hlk,
          DenoA.Room.addPeer, DenoA.regSet_regSet]
      rw [hres]
      refine ⟨DenoA.nodup_keys_regSet reg ip _ hnd, ?_⟩
      intro e he
      rcases DenoA.mem_regSet reg ip _ e he with hm | hm
      · exact hne e hm
      · rw [hm]
        exact DenoA.mapSet_ne_nil [] peer
    | some room =>
      have hres : (DenoA.openConn reg ip peer).1 =
          DenoA.regSet reg ip (DenoA.mapSet room peer) := by
        simp [DenoA.openConn, DenoA.RoomManager.getOrCreateRoom, hlk,
          DenoA.Room.addPeer]
      rw [hres]
      refine ⟨DenoA.nodup_keys_regSet reg ip _ hnd, ?_⟩
      intro e he
      rcases DenoA.mem_regSet reg ip _ e he with hm | hm
      · exact hne e hm
      · rw [hm]
        exact DenoA.mapSet_ne_nil room peer
  · intro reg ip pid hwf
    obtain ⟨hnd, hne⟩ := hwf
    cases hlk : DenoA.regLookup reg ip with
    | none =>
      have hres : (DenoA.teardownConn reg ip pid).1 = reg := by
        simp [DenoA.teardownConn, hlk]
      rw [hres]
      exact ⟨hnd, hne⟩
    | some room =>
      have hnd1 : ((DenoA.regSet reg ip (DenoA.Room.removePeer room pid).1).map
          Prod.fst).Nodup := DenoA.nodup_keys_regSet reg ip _ hnd
      have hmem1 : ∀ e ∈ DenoA.regSet reg ip (DenoA.Room.removePeer room pid).1,
          e ∈ reg ∨ e = (ip, (DenoA.Room.removePeer room pid).1) :=
        fun e he => DenoA.mem_regSet reg ip _ e he
      have hres : (DenoA.teardownConn reg ip pid).1 =
          DenoA.RoomManager.removeRoomIfEmpty
            (DenoA.regSet reg ip (DenoA.Room.removePeer room pid).1) ip := by
        simp [DenoA.teardownConn, hlk]
      rw [hres]
      unfold DenoA.RoomManager.removeRoomIfEmpty
      rw [DenoA.regLookup_regSet_self]
      dsimp only
      cases hemp : (DenoA.Room.removePeer room pid).1.isEmpty with
      | true =>
        rw [if_pos rfl]
        refine ⟨List.Nodup.sublist ((DenoA.regErase_sublist _ ip).map Prod.fst) hnd1, ?_⟩
        intro e he
        obtain ⟨hm, hip⟩ := DenoA.mem_regErase_ne _ ip e hnd1 he
        rcases hmem1 e hm with hm2 | hm2
        · exact hne e hm2
        · exact absurd (by rw [hm2]) hip
      | false =>
        rw [if_neg Bool.false_ne_true]
        refine ⟨hnd1, ?_⟩
        intro e he
        rcases hmem1 e he with hm | hm
        · exact hne e hm
        · have hnn : (DenoA.Room.removePeer room pid).1 ≠ [] := by
            intro hnil
            rw [hnil] at hemp
            simp at hemp
          rw [hm]
          exact hnn
  · intro reg ip p hwf hlk
    obtain ⟨hnd, _⟩ := hwf
    have hrm : DenoA.Room.removePeer [p] p.id = ([], []) := by
      simp [DenoA.Room.removePeer, DenoA.hasPeer, DenoA.getPeer, DenoA.mapDelete,
        DenoA.broadcast]
    have hres : (DenoA.teardownConn reg ip p.id).1 =
        DenoA.RoomManager.removeRoomIfEmpty (DenoA.regSet reg ip []) ip := by
      simp [DenoA.teardownConn, hlk, hrm]
    rw [hres]
    unfold DenoA.RoomManager.removeRoomIfEmpty
    rw [DenoA.regLookup_regSet_self]
    simp only [List.isEmpty_nil, if_pos rfl]
    exact DenoA.regLookup_regErase_self _ ip (DenoA.nodup_keys_regSet reg ip [] hnd)
  · intro reg ip peer hlk
    constructor
    · have hres : (DenoA.openConn reg ip peer).1 = DenoA.regSet reg ip [peer] := by
        simp [DenoA.openConn, DenoA.RoomManager.getOrCreateRoom, hlk,
          DenoA.Room.addPeer, DenoA.regSet_regSet, DenoA.mapSet]
      rw [hres]
      exact DenoA.regLookup_regSet_self reg ip [peer]
    · simp [DenoA.openConn, DenoA.RoomManager.getOrCreateRoom, hlk,
        DenoA.Room.addPeer, DenoA.broadcast]

/-- C9 witness: a join into an empty registry satisfies the invariant, and
tearing down the only member of a registered room removes the entry and a
rejoin starts from an empty snapshot. -/
theorem C9_registry_invariant_witness :
    DenoA.regWF (DenoA.openConn [] "k" ⟨"a", "d", "n", true⟩).1 ∧
    DenoA.regLookup
        (DenoA.teardownConn [("k", [⟨"a", "d", "n", true⟩])] "k" "a").1 "k" = none ∧
    (DenoA.openConn [] "k" ⟨"b", "d", "n", true⟩).2 =
      [("b", Payload.peersList [])] :=
  ⟨C9_registry_invariant.2.1 [] "k" ⟨"a", "d", "n", true⟩ (by decide),
   C9_registry_invariant.2.2.2.1 [("k", [⟨"a", "d", "n", true⟩])] "k"
      ⟨"a", "d", "n", true⟩ (by decide) rfl,
   (C9_registry_invariant.2.2.2.2 [] "k" ⟨"b", "d", "n", true⟩ rfl).2⟩

end FileDrop
